import Mathlib

/-!
Verification of the Spellcracker card-resolution core: the catalog index built by
`loadApiData`, the tiered closest-match resolver `getClosestCard` (src/src/WitchesRevel/api.js),
the duplicated colour helpers (src/src/WitchesRevel/discord.js and src/unnamed/part_002),
and the inline-reference extractor `parseInlineCommands` / `parseCard` of the
message-response module (src/unnamed/part_003).

JavaScript strings are modelled as lists of characters.  The Utility modules
(`Utility/text.js`, `Utility/fuzzySearch.js`, `WitchesRevel/aliases.js`) are not part of
the available sources; the definitions taken from them are modelled from the spec and say
so in their doc comments.  Everything else is translated directly from the JavaScript.
-/

namespace Spellcracker

/-- Characters of a JavaScript string, modelled as a list of `Char`. -/
abbrev Str := List Char

/-- The backtick character, written via its code point. -/
def btick : Char := Char.ofNat 96

/-- The backslash character. -/
def bslash : Char := '\\'

/-- The left curly-brace character, written via its code point. -/
def lcurl : Char := Char.ofNat 123

/-- The right curly-brace character, written via its code point. -/
def rcurl : Char := Char.ofNat 125

/-- JavaScript `toLowerCase`, restricted to ASCII case mapping. -/
def jsToLower (s : Str) : Str := s.map Char.toLower

/-- JavaScript `toUpperCase`, restricted to ASCII case mapping. -/
def jsToUpper (s : Str) : Str := s.map Char.toUpper

/-- Modelled from the spec: the "word" character set of the Normalizer (spec 4.1) —
letters, digits and spaces survive normalisation (`Utility/text.js` is not under `src/`). -/
def keepChar (c : Char) : Bool := c.isAlpha || c.isDigit || c == ' '

/-- Modelled from the spec (spec 4.1): collapse consecutive spaces to single spaces. -/
def collapseSpaces : Str → Str
  | [] => []
  | [c] => [c]
  | c :: d :: rest =>
    if c == ' ' && d == ' ' then collapseSpaces (d :: rest)
    else c :: collapseSpaces (d :: rest)

/-- Modelled from the spec (spec 4.1): trim spaces from both ends. -/
def trimSpaces (s : Str) : Str :=
  ((s.dropWhile (· == ' ')).reverse.dropWhile (· == ' ')).reverse

/-- Modelled from the spec: `normalise` of `Utility/text.js` (not under `src/`), per
spec 4.1: lower-case, strip characters outside the word set, collapse runs of
whitespace, trim the ends. -/
def normalise (s : Str) : Str :=
  trimSpaces (collapseSpaces ((jsToLower s).filter keepChar))

/-- Fuel-driven body of the Levenshtein distance; every recursive call removes at
least one character, so fuel equal to the total length always suffices. -/
def levFuel : Nat → Str → Str → Nat
  | 0, _, _ => 0
  | _ + 1, [], t => t.length
  | _ + 1, s, [] => s.length
  | fuel + 1, a :: s, b :: t =>
    if a == b then levFuel fuel s t
    else 1 + min (levFuel fuel s (b :: t)) (min (levFuel fuel (a :: s) t) (levFuel fuel s t))

/-- Modelled from the spec (spec 4.2): classic unit-cost Levenshtein edit distance;
`Utility/fuzzySearch.js` is not under `src/`. -/
def lev (a b : Str) : Nat := levFuel (a.length + b.length) a b

/-- Modelled from the spec (spec 4.2 and 4.4 step 4): `bestMatch` of
`Utility/fuzzySearch.js` (not under `src/`) — the candidate with minimum edit
distance to the query, ties broken in favour of the earliest candidate. -/
def bestMatch (q : Str) : List Str → Option Str
  | [] => none
  | t :: rest =>
    match bestMatch q rest with
    | none => some t
    | some b => if lev q b < lev q t then some b else some t

/-- Modelled from the spec: `readId` of `Utility/text.js` (not under `src/`) — the
stable identifier derived from a title (spec 3, spec 4.4 step 5).  Modelled as the
normalised title, so that the build (api.js line 60) and the resolver's lookup
(api.js line 160) derive identifiers by the same rule. -/
def readId (s : Str) : Str := normalise s

/-- `split(/[ ]/)` from api.js line 73; on the empty string it yields one empty word,
as in JavaScript. -/
def splitOnSpace : Str → List Str
  | [] => [[]]
  | c :: rest =>
    if c == ' ' then [] :: splitOnSpace rest
    else
      match splitOnSpace rest with
      | w :: ws => (c :: w) :: ws
      | [] => [[c]]

/-- Acronym derivation from api.js lines 72–75: the first character of each
space-separated word of a normalised title, joined. -/
def acronymOf (s : Str) : Str :=
  ((splitOnSpace s).map (fun w => w.take 1)).flatten

/-- A JavaScript object used as a string-keyed map, newest assignment first. -/
abbrev JsMap (β : Type) := List (Str × β)

/-- Property write: a later `jset` shadows an earlier one on lookup. -/
def jset {β : Type} (m : JsMap β) (k : Str) (v : β) : JsMap β := (k, v) :: m

/-- Property read: `undefined` is `none`. -/
def jget {β : Type} (m : JsMap β) (k : Str) : Option β :=
  (m.find? (fun p => p.1 == k)).map Prod.snd

/-- JavaScript falsiness of a possibly-absent string: `undefined` and `""` are falsy. -/
def jsFalsyOpt (o : Option Str) : Bool :=
  match o with
  | none => true
  | some s => s.isEmpty

/-- JavaScript truthiness of a possibly-absent string. -/
def jsTruthyOpt (o : Option Str) : Bool := !(jsFalsyOpt o)

/-- `card.fullNames` of the snapshot schema: the front-face full name is the primary title. -/
structure FullNames where
  frontFace : Str
deriving DecidableEq

/-- `card.frontFace` of the snapshot schema: the fields the colour helpers read. -/
structure FrontFace where
  stitchIcon : Option Str
  typeLine : Str
deriving DecidableEq

/-- A catalog entry as read from the snapshot. -/
structure Card where
  id : Str
  fullNames : FullNames
  frontFace : FrontFace
deriving DecidableEq

/-- An expansion record as read from the snapshot. -/
structure Expansion where
  id : Str
deriving DecidableEq

/-- api.js lines 58–61: the card cache, keyed by `readId` of the front-face full name
(string keys only; the numeric array indices are not read by any resolution path). -/
def buildCards (cs : List Card) : JsMap Card :=
  cs.foldl (fun m c => jset m (readId c.fullNames.frontFace) c) []

/-- api.js line 69: the ordered list of normalised card titles. -/
def buildNormalisedCardTitles (cs : List Card) : List Str :=
  cs.map (fun c => normalise c.fullNames.frontFace)

/-- api.js lines 70–71: normalised title to original title.  Plain assignment, so a
later entry with the same normalised title shadows an earlier one. -/
def buildNormalisedToUnnormalised (cs : List Card) : JsMap Str :=
  cs.foldl (fun m c => jset m (normalise c.fullNames.frontFace) c.fullNames.frontFace) []

/-- api.js lines 72–78: the acronym map.  The write is guarded by JavaScript
truthiness of the existing entry, so an acronym already mapped to a non-empty
identifier is never overwritten. -/
def buildAcronymsToCardIds (cs : List Card) : JsMap Str :=
  cs.foldl
    (fun m c =>
      if jsFalsyOpt (jget m (acronymOf (normalise c.fullNames.frontFace))) then
        jset m (acronymOf (normalise c.fullNames.frontFace)) c.id
      else m)
    []

/-- One insertion into the first-character buckets of api.js lines 84–91. -/
def bucketAdd (m : List (Option Char × List Str)) (k : Option Char) (t : Str) :
    List (Option Char × List Str) :=
  match m with
  | [] => [(k, [t])]
  | (k', l) :: rest => if k' = k then (k', l ++ [t]) :: rest else (k', l) :: bucketAdd rest k t

/-- api.js lines 83–91: normalised titles bucketed by first character. -/
def buildMappedCardTitles (titles : List Str) : List (Option Char × List Str) :=
  titles.foldl (fun m t => bucketAdd m t.head? t) []

/-- api.js lines 94–97: expansions keyed by id. -/
def buildExpansions (es : List Expansion) : JsMap Expansion :=
  es.foldl (fun m e => jset m e.id e) []

/-- The derived index held in `DATA` after a fully successful build. -/
structure WrIndex where
  cards : JsMap Card
  normalisedCardTitles : List Str
  normalisedToUnnormalisedCardTitles : JsMap Str
  acronymsToCardIds : JsMap Str
  mappedCardTitles : List (Option Char × List Str)
  expansions : JsMap Expansion
deriving DecidableEq

/-- The successful build of api.js lines 57–97 as one pure function of the snapshot arrays. -/
def buildIndex (cs : List Card) (es : List Expansion) : WrIndex :=
  ⟨buildCards cs, buildNormalisedCardTitles cs, buildNormalisedToUnnormalised cs,
   buildAcronymsToCardIds cs, buildMappedCardTitles (buildNormalisedCardTitles cs),
   buildExpansions es⟩

/-- api.js lines 139–143: the acronym-shortcut guard of `getClosestCard`.  Note that
the length test is on the normalised query, and the map access is a truthiness test. -/
def acronymHit (D : WrIndex) (input : Str) : Bool :=
  decide (1 < (normalise input).length) && (jsToUpper input == input) &&
    !(jsFalsyOpt (jget D.acronymsToCardIds (normalise input)))

/-- `t.startsWith q` for character lists. -/
def strStartsWith (q t : Str) : Bool := t.take q.length == q

/-- `t.includes q` for character lists. -/
def strIncludes (q : Str) : Str → Bool
  | [] => q.isEmpty
  | c :: rest => if strStartsWith q (c :: rest) then true else strIncludes q rest

/-- api.js lines 148–159: the candidate set actually handed to `bestMatch` — titles
starting with the query if any, else titles containing it, else every title. -/
def chosenTier (titles : List Str) (query : Str) : List Str :=
  let superStrings := titles.filter (fun t => strIncludes query t)
  let leadingStrings := superStrings.filter (fun t => strStartsWith query t)
  if 0 < leadingStrings.length then leadingStrings
  else if 0 < superStrings.length then superStrings
  else titles

/-- api.js lines 135–162: `getClosestCard`.  The acronym shortcut fires first; otherwise
the best match of the chosen tier is resolved through `readId` against the card cache. -/
def getClosestCard (D : WrIndex) (input : Str) : Option Card :=
  let query := normalise input
  if acronymHit D input then
    jget D.cards ((jget D.acronymsToCardIds query).getD [])
  else
    match bestMatch query (chosenTier D.normalisedCardTitles query) with
    | some name => jget D.cards (readId name)
    | none => none

/-- Modelled from the spec (spec 4.5): `applyAlias` of `WitchesRevel/aliases.js`
(not under `src/`) — normalise the input, then apply the alias map at most once. -/
def applyAlias (am : JsMap Str) (q : Str) : Str :=
  let n := normalise q
  (jget am n).getD n

/-- A parsed snapshot body; a `none` field models a required array missing from the
document (`data.cards` / `data.expansions` undefined). -/
structure Snapshot where
  cards : Option (List Card)
  expansions : Option (List Expansion)
deriving DecidableEq

/-- The mutable `DATA` object of api.js; a `none` field is one that is absent. -/
structure WrData where
  cards : Option (JsMap Card)
  normalisedCardTitles : Option (List Str)
  normalisedToUnnormalisedCardTitles : Option (JsMap Str)
  acronymsToCardIds : Option (JsMap Str)
  mappedCardTitles : Option (List (Option Char × List Str))
  expansions : Option (JsMap Expansion)
deriving DecidableEq

/-- The error that aborts a (re)load: a fetch failure thrown by `fetchData`
(api.js lines 106–117), or the TypeError thrown by `forEach` on a missing array. -/
inductive LoadError where
  | fetch (msg : Str)
  | missingCards
  | missingExpansions
deriving DecidableEq

/-- api.js lines 54–98: `loadApiData` as a state transformer on `DATA`.  The fetch is
awaited before any mutation, so a fetch error leaves the state untouched; after that
the fields are overwritten one by one, and a `forEach` on a missing array throws
after the preceding assignments have already happened. -/
def loadApiData (old : WrData) (fetched : Except Str Snapshot) : WrData × Option LoadError :=
  match fetched with
  | Except.error e => (old, some (LoadError.fetch e))
  | Except.ok snap =>
    match snap.cards with
    | none =>
      (⟨none, old.normalisedCardTitles, old.normalisedToUnnormalisedCardTitles,
        old.acronymsToCardIds, old.mappedCardTitles, old.expansions⟩,
       some LoadError.missingCards)
    | some cs =>
      match snap.expansions with
      | none =>
        (⟨some (buildCards cs), some (buildNormalisedCardTitles cs),
          some (buildNormalisedToUnnormalised cs), some (buildAcronymsToCardIds cs),
          some (buildMappedCardTitles (buildNormalisedCardTitles cs)), some []⟩,
         some LoadError.missingExpansions)
      | some es =>
        (⟨some (buildCards cs), some (buildNormalisedCardTitles cs),
          some (buildNormalisedToUnnormalised cs), some (buildAcronymsToCardIds cs),
          some (buildMappedCardTitles (buildNormalisedCardTitles cs)),
          some (buildExpansions es)⟩,
         none)

/-- The character set JavaScript `trim` removes (the common whitespace characters). -/
def isJsSpace (c : Char) : Bool :=
  c == ' ' || c == '\t' || c == '\n' || c == '\r' || c == Char.ofNat 11 || c == Char.ofNat 12

/-- JavaScript `String.prototype.trim`. -/
def jsTrim (s : Str) : Str :=
  ((s.dropWhile isJsSpace).reverse.dropWhile isJsSpace).reverse

/-- Line terminators, which JavaScript `.` (no `s` flag) does not match. -/
def isLineTerm (c : Char) : Bool :=
  c == '\n' || c == '\r' || c == Char.ofNat 8232 || c == Char.ofNat 8233

/-- Whether a closing triple backtick lies ahead (the lazy `[\s\S]*?` always finds the
earliest one; the closing marker's own escape status is not examined by the regex). -/
def hasFenceClose : Str → Bool
  | [] => false
  | c :: rest =>
    if c == btick && rest.take 2 == [btick, btick] then true
    else hasFenceClose rest

/-- The global replace of part_003 line 153, `(?<!\\)` + triple backtick +
`[\s\S]*?` + triple backtick, as a character-by-character scan.  `prev` is the
previous character of the input (for the negative look-behind), `inFence` says whether
the scan is inside a block being deleted, and `skip` silently consumes the remaining
characters of a three-character marker.  A fence is entered only when a closing
marker exists ahead, since otherwise the regex fails at that position and the engine
moves on by one character. -/
def stripAux : Option Char → Bool → Nat → Str → Str
  | _, _, _, [] => []
  | _, inFence, n + 1, c :: rest => stripAux (some c) inFence n rest
  | _, true, 0, c :: rest =>
    if c == btick && rest.take 2 == [btick, btick] then stripAux (some c) false 2 rest
    else stripAux (some c) true 0 rest
  | prev, false, 0, c :: rest =>
    if c == btick && rest.take 2 == [btick, btick] && !(prev == some bslash)
        && hasFenceClose (rest.drop 2) then
      stripAux (some c) true 2 rest
    else c :: stripAux (some c) false 0 rest

/-- part_003 line 153: `content.replace(/(?<!\\)` + fence regex + `/g, "")`. -/
def stripCodeBlocks (s : Str) : Str := stripAux none false 0 s

/-- Lazy scan for the inner text of one bracketed span: the earliest doubled closing
character wins; a line terminator before it makes the whole span fail, as `.` does
not cross lines.  Returns the inner text and the remainder after the close. -/
def innerScan (cl : Char) : Str → Option (Str × Str)
  | x :: y :: rest =>
    if x == cl && y == cl then some ([], rest)
    else if isLineTerm x then none
    else
      match innerScan cl (y :: rest) with
      | some (i, r) => some (x :: i, r)
      | none => none
  | _ => none

/-- Fuel-driven body of the inline-command scan; every recursive call moves at least
one character forward, so fuel equal to the text length always suffices.
At each position the three openers are tried; on failure the scan advances one
character, as the regex engine does. -/
def fcFuel : Nat → Str → List Str
  | 0, _ => []
  | _ + 1, [] => []
  | fuel + 1, c :: rest =>
    if c = '[' ∧ rest.take 1 = ['['] then
      match innerScan ']' (rest.drop 1) with
      | some (i, r) => (c :: '[' :: (i ++ [']', ']'])) :: fcFuel fuel r
      | none => fcFuel fuel rest
    else if c = lcurl ∧ rest.take 1 = [lcurl] then
      match innerScan rcurl (rest.drop 1) with
      | some (i, r) => (c :: lcurl :: (i ++ [rcurl, rcurl])) :: fcFuel fuel r
      | none => fcFuel fuel rest
    else if c = '<' ∧ rest.take 1 = ['<'] then
      match innerScan '>' (rest.drop 1) with
      | some (i, r) => (c :: '<' :: (i ++ ['>', '>'])) :: fcFuel fuel r
      | none => fcFuel fuel rest
    else fcFuel fuel rest

/-- part_003 line 154: the global match of the inline-command regex
(double square brackets, double curly braces, or double angle brackets, lazy inner
text). -/
def findCommands (s : Str) : List Str := fcFuel s.length s

/-- part_003 line 177: `match.substring(2, match.length - 2)`. -/
def innerOf (m : Str) : Str := (m.drop 2).take (m.length - 4)

/-- Which embed a span requests: full card view or art-only view. -/
inductive ViewTag where
  | full
  | art
deriving DecidableEq

/-- part_003 line 217: `match[0] == "["` selects the full embed, anything else the image embed. -/
def tagOf (m : Str) : ViewTag := if m.take 1 = ['['] then ViewTag.full else ViewTag.art

/-- part_003 lines 166–221: the command loop of `parseInlineCommands` together with the
body of `parseCard`.  `parseCard` is `async` and is called without `await`, so the
`if (success)` test sees a (always truthy) Promise and the countdown is decremented
for every span that passes the emptiness/length check, whether or not an embed was
sent.  An empty or over-long trimmed span executes `return`, ending the whole loop. -/
def processMatches (D : WrIndex) (am : JsMap Str) :
    List Str → Nat → List Str → List (Card × ViewTag)
  | [], _, _ => []
  | m :: rest, countdown, prevCards =>
    if countdown < 1 then []
    else
      let rawInput := jsTrim (innerOf m)
      if rawInput = [] ∨ 255 < rawInput.length then []
      else
        match getClosestCard D (applyAlias am rawInput) with
        | none => processMatches D am rest (countdown - 1) prevCards
        | some card =>
          if card.id ∈ prevCards then processMatches D am rest (countdown - 1) prevCards
          else (card, tagOf m) :: processMatches D am rest (countdown - 1) (prevCards ++ [card.id])

/-- part_003 lines 150–189: strip fenced code blocks, find the inline commands, and
run the command loop with the configured result limit. -/
def parseInlineCommands (D : WrIndex) (am : JsMap Str) (content : Str) (resultLimit : Nat) :
    List (Card × ViewTag) :=
  processMatches D am (findCommands (stripCodeBlocks content)) resultLimit []

/-- The colour configuration read from the environment (numeric coercions of the
`COLOR_*` variables). -/
structure ColorEnv where
  colorError : Int
  colorFlames : Int
  colorCurrents : Int
  colorMoonlight : Int
  colorInfo : Int
  colorNoDomain : Int
deriving DecidableEq

/-- discord.js lines 26–40 (identical in part_002): domain id to colour, defaulting to
the error colour. -/
def domainToColor (env : ColorEnv) (domainId : Str) : Int :=
  if domainId = "flames".data then env.colorFlames
  else if domainId = "currents".data then env.colorCurrents
  else if domainId = "moonlight".data then env.colorMoonlight
  else env.colorError

/-- src/src/WitchesRevel/discord.js lines 48–52: `cardToColor` — stitch-icon colour if
the icon is truthy, otherwise always the info colour. -/
def cardToColor (env : ColorEnv) (card : Card) : Int :=
  if jsTruthyOpt card.frontFace.stitchIcon then
    domainToColor env (card.frontFace.stitchIcon.getD [])
  else env.colorInfo

/-- src/unnamed/part_002 lines 48–55: the duplicate module's `cardToColor` — stitch-icon
colour if truthy, otherwise the info colour only for resource/marker type lines and the
no-domain colour for everything else. -/
def cardToColorDup (env : ColorEnv) (card : Card) : Int :=
  if jsTruthyOpt card.frontFace.stitchIcon then
    domainToColor env (card.frontFace.stitchIcon.getD [])
  else if card.frontFace.typeLine = "A Resource.".data ∨ card.frontFace.typeLine = "A Marker.".data then
    env.colorInfo
  else env.colorNoDomain

/-- A sample card with no stitch icon and an empty type line. -/
def mkCard (i t : String) : Card := ⟨i.data, ⟨t.data⟩, ⟨none, []⟩⟩

def cAA : Card := mkCard "aa" "aa"

def cBB : Card := mkCard "bb" "bb"

def cFW1 : Card := mkCard "flame ward" "Flame Ward"

def cFZ : Card := mkCard "frozen wastes" "Frozen Wastes"

def cAard : Card := mkCard "aardvark" "Aardvark"

def cAe : Card := mkCard "ae" "Ae"

def cEm1 : Card := mkCard "x1" "Ember Call!"

def cEm2 : Card := mkCard "x2" "Ember Call"

/-- A two-card index over the titles `aa` and `bb`. -/
def idxAB : WrIndex := buildIndex [cAA, cBB] []

/-- A two-card index in which both titles derive the acronym `fw`. -/
def idxFW : WrIndex := buildIndex [cFW1, cFZ] []

/-- A two-card index in which both titles derive the acronym `a`. -/
def idxA : WrIndex := buildIndex [cAard, cAe] []

/-- A distinguishable colour environment for the colour-helper comparison. -/
def envTest : ColorEnv := ⟨0, 3, 4, 5, 1, 2⟩

/-- A stitch-less card whose type line is neither a resource nor a marker. -/
def cardWitch : Card := ⟨"w".data, ⟨"Witch".data⟩, ⟨none, "A Witch.".data⟩⟩

/-- A card with a truthy stitch icon. -/
def cardFlame : Card := ⟨"f".data, ⟨"F".data⟩, ⟨some "flames".data, "A Spell.".data⟩⟩

/-- A fully-populated previous `DATA` state, for the reload-failure claims. -/
def oldData : WrData :=
  ⟨some [("old".data, cAA)], some ["old".data], some [("old".data, "Old".data)],
   some [("o".data, "old".data)], some [(some 'o', ["old".data])],
   some [("e1".data, ⟨"e1".data⟩)]⟩

/-- A snapshot whose body parsed but whose `expansions` array is missing. -/
def snapNoExp : Snapshot := ⟨some [cAA], none⟩

/-- A card whose whole title is the literal string `Fw`. -/
def cFw2 : Card := mkCard "fw" "Fw"

/-- An index holding `Flame Ward` (acronym `fw`) and the literal title `Fw`. -/
def idxC1 : WrIndex := buildIndex [cFW1, cFw2] []

/-- A triple-backtick fence marker. -/
def fenceM : Str := [btick, btick, btick]

/-- A text whose outer fence markers are both unescaped but which contains an escaped
marker in between: the lazy close of the strip regex stops at the escaped marker. -/
def t8 : Str := fenceM ++ "x".data ++ [bslash] ++ fenceM ++ " [[aa]] ".data ++ fenceM

/-- Lookup after a fold of shadowing writes: the value of the last card that wrote the
key, i.e. the first hit in build-reverse order. -/
theorem jget_foldl_jset {β : Type} (f : Card → Str) (g : Card → β) (cs : List Card)
    (m : JsMap β) (k : Str) :
    jget (cs.foldl (fun acc c => jset acc (f c) (g c)) m) k =
      match cs.reverse.find? (fun c => f c == k) with
      | some c => some (g c)
      | none => jget m k := by
  induction cs generalizing m with
  | nil => rfl
  | cons c cs ih =>
    simp only [List.foldl_cons, List.reverse_cons, List.find?_append, ih]
    cases h : List.find? (fun x => f x == k) cs.reverse with
    | some c' => rfl
    | none =>
      simp only [Option.or]
      cases hc : f c == k with
      | true => simp [jget, jset, List.find?, hc]
      | false => simp [jget, jset, List.find?, hc]

/-- A `find?` returning a given element, from membership, satisfaction and uniqueness. -/
theorem find?_unique {α : Type} {p : α → Bool} {l : List α} {a : α}
    (ha : a ∈ l) (hpa : p a = true) (huniq : ∀ b ∈ l, p b = true → b = a) :
    l.find? p = some a := by
  cases h : l.find? p with
  | none => exact absurd hpa (List.find?_eq_none.mp h a ha)
  | some b =>
    have hb := List.mem_of_find?_eq_some h
    have hpb := List.find?_some h
    rw [huniq b hb hpb]

/-- Lookup in the acronym fold: the first card (in build order) whose acronym is the
key wins, provided no identifier is the empty string. -/
theorem jget_buildAcros_aux (cs : List Card) (a : Str) :
    ∀ (m : JsMap Str), (∀ c ∈ cs, c.id ≠ []) →
    jget (cs.foldl
      (fun acc c =>
        if jsFalsyOpt (jget acc (acronymOf (normalise c.fullNames.frontFace))) then
          jset acc (acronymOf (normalise c.fullNames.frontFace)) c.id
        else acc) m) a =
      if jsFalsyOpt (jget m a) then
        match cs.find? (fun c => acronymOf (normalise c.fullNames.frontFace) == a) with
        | some c => some c.id
        | none => jget m a
      else jget m a := by
  induction cs with
  | nil =>
    intro m _
    simp only [List.foldl_nil, List.find?_nil]
    split <;> rfl
  | cons c cs ih =>
    intro m hid
    have hid' : ∀ x ∈ cs, x.id ≠ [] := fun x hx => hid x (List.mem_cons_of_mem _ hx)
    have hidc : c.id ≠ [] := hid c (List.mem_cons_self _ _)
    simp only [List.foldl_cons]
    by_cases hca : acronymOf (normalise c.fullNames.frontFace) = a
    · rw [hca]
      by_cases hguard : jsFalsyOpt (jget m a) = true
      · rw [if_pos hguard, ih _ hid']
        have h1 : jget (jset m a c.id) a = some c.id := by
          simp [jget, jset, List.find?]
        have h2 : jsFalsyOpt (some c.id) = false := by
          cases hcid : c.id with
          | nil => exact absurd hcid hidc
          | cons x xs => rfl
        rw [h1, h2, if_neg (by simp)]
        rw [List.find?_cons_of_pos _ (by simp [hca]), if_pos hguard]
      · rw [if_neg hguard, ih _ hid', if_neg hguard, if_neg hguard]
    · by_cases hguard : jsFalsyOpt (jget m (acronymOf (normalise c.fullNames.frontFace))) = true
      · rw [if_pos hguard, ih _ hid']
        have hacneq : (acronymOf (normalise c.fullNames.frontFace) == a) = false := by
          simp [hca]
        have h1 : jget (jset m (acronymOf (normalise c.fullNames.frontFace)) c.id) a
            = jget m a := by
          simp [jget, jset, List.find?, hacneq]
        rw [h1, List.find?_cons_of_neg _ (by simp [hca])]
      · rw [if_neg hguard, ih _ hid', List.find?_cons_of_neg _ (by simp [hca])]

/-- `bestMatch` returns a minimum-distance candidate, and the first such one in list
order: everything strictly before it in the list has strictly larger distance. -/
theorem bestMatch_spec (q : Str) (l : List Str) (hl : l ≠ []) :
    ∃ t pre post, bestMatch q l = some t ∧ l = pre ++ t :: post ∧
      (∀ u ∈ l, lev q t ≤ lev q u) ∧ ∀ u ∈ pre, lev q t < lev q u := by
  induction l with
  | nil => exact absurd rfl hl
  | cons a rest ih =>
    by_cases hr : rest = []
    · subst hr
      refine ⟨a, [], [], rfl, rfl, ?_, by simp⟩
      intro u hu
      have : u = a := by simpa using hu
      rw [this]
    · obtain ⟨b, pre', post', hbm, hsplit, hmin, hstrict⟩ := ih hr
      by_cases hlt : lev q b < lev q a
      · refine ⟨b, a :: pre', post', ?_, ?_, ?_, ?_⟩
        · simp only [bestMatch]
          rw [hbm]
          exact if_pos hlt
        · rw [hsplit]; rfl
        · intro u hu
          rcases List.mem_cons.mp hu with h | h
          · rw [h]; exact Nat.le_of_lt hlt
          · exact hmin u h
        · intro u hu
          rcases List.mem_cons.mp hu with h | h
          · rw [h]; exact hlt
          · exact hstrict u h
      · have hle : lev q a ≤ lev q b := Nat.le_of_not_lt hlt
        refine ⟨a, [], rest, ?_, rfl, ?_, by simp⟩
        · simp only [bestMatch]
          rw [hbm]
          exact if_neg hlt
        · intro u hu
          rcases List.mem_cons.mp hu with h | h
          · rw [h]
          · exact Nat.le_trans hle (hmin u h)

/-- The chosen tier is never empty when the title list is not. -/
theorem chosenTier_ne_nil (titles : List Str) (q : Str) (h : titles ≠ []) :
    chosenTier titles q ≠ [] := by
  simp only [chosenTier]
  split_ifs with h1 h2
  · intro hc; rw [hc] at h1; simp at h1
  · intro hc; rw [hc] at h2; simp at h2
  · exact h

/-- A closing marker exists after any backtick-free segment followed by one. -/
theorem hasFenceClose_append : ∀ (inner post : Str), btick ∉ inner →
    hasFenceClose (inner ++ btick :: btick :: btick :: post) = true := by
  intro inner
  induction inner with
  | nil => intro post _; rfl
  | cons c inner ih =>
    intro post h
    have hc : (c == btick) = false := by
      simp only [beq_eq_false_iff_ne, ne_eq]
      intro hh
      exact h (hh ▸ List.mem_cons_self _ _)
    rw [List.cons_append]
    simp only [hasFenceClose]
    rw [if_neg (by simp [hc])]
    exact ih post (fun hx => h (List.mem_cons_of_mem _ hx))

/-- Inside a fence, the scan deletes everything up to and including the earliest
closing marker and resumes outside the fence. -/
theorem stripAux_inFence : ∀ (inner post : Str) (p : Option Char), btick ∉ inner →
    stripAux p true 0 (inner ++ btick :: btick :: btick :: post) =
      stripAux (some btick) false 0 post := by
  intro inner
  induction inner with
  | nil => intro post p _; rfl
  | cons c inner ih =>
    intro post p h
    have hc : (c == btick) = false := by
      simp only [beq_eq_false_iff_ne, ne_eq]
      intro hh
      exact h (hh ▸ List.mem_cons_self _ _)
    rw [List.cons_append]
    simp only [stripAux]
    rw [if_neg (by simp [hc])]
    exact ih post (some c) (fun hx => h (List.mem_cons_of_mem _ hx))

/-- An unescaped fenced block behind a marker-free prefix is deleted whole, and the
scan continues after its closing marker. -/
theorem stripAux_fence : ∀ (pre inner post : Str) (p : Option Char),
    btick ∉ pre → bslash ∉ pre → btick ∉ inner → p ≠ some bslash →
    stripAux p false 0
        (pre ++ btick :: btick :: btick :: (inner ++ btick :: btick :: btick :: post)) =
      pre ++ stripAux (some btick) false 0 post := by
  intro pre
  induction pre with
  | nil =>
    intro inner post p h1 h2 h3 hp
    have hpb : (p == some bslash) = false := by
      cases p with
      | none => rfl
      | some x =>
        simp only [beq_eq_false_iff_ne, ne_eq]
        exact hp
    have hclose := hasFenceClose_append inner post h3
    rw [List.nil_append]
    simp only [stripAux]
    rw [if_pos (by simp [hpb, hclose])]
    exact stripAux_inFence inner post (some btick) h3
  | cons x pre ih =>
    intro inner post p h1 h2 h3 hp
    have hx1 : (x == btick) = false := by
      simp only [beq_eq_false_iff_ne, ne_eq]
      intro hh
      exact h1 (hh ▸ List.mem_cons_self _ _)
    have hx2 : x ≠ bslash := fun hh => h2 (hh ▸ List.mem_cons_self _ _)
    rw [List.cons_append]
    simp only [stripAux]
    rw [if_neg (by simp [hx1]), List.cons_append]
    rw [ih inner post (some x) (fun hx => h1 (List.mem_cons_of_mem _ hx))
      (fun hx => h2 (List.mem_cons_of_mem _ hx)) h3
      (fun hh => hx2 (by injection hh))]

/-- C1 counterexample: for the raw query `FW` against a catalog holding `Flame Ward`
(acronym `fw`) and the literal title `Fw`, the first non-empty tier is the single
title `fw`, whose minimum-distance entry is the `Fw` card — but `getClosestCard`
returns the `Flame Ward` card, because the acronym shortcut fires first.  So the
claim, quantified over every raw query, is false. -/
theorem c1_counterexample :
    getClosestCard idxC1 "FW".data = some cFW1 ∧
    chosenTier idxC1.normalisedCardTitles (normalise "FW".data) = ["fw".data] ∧
    jget idxC1.cards (readId "fw".data) = some cFw2 ∧
    cFW1 ≠ cFw2 := by decide

/-- C1 (amended): whenever the acronym shortcut does not fire and the catalog is
non-empty, `getClosestCard` picks, inside the chosen tier (prefix matches, else
substring matches, else all titles), the title of minimum edit distance to the
normalised query — earliest occurrence on ties — and returns the catalog entry keyed
by that title's identifier. -/
theorem c1_tiered_resolution (D : WrIndex) (input : Str)
    (hshort : acronymHit D input = false)
    (hne : D.normalisedCardTitles ≠ []) :
    ∃ t pre post,
      chosenTier D.normalisedCardTitles (normalise input) = pre ++ t :: post ∧
      (∀ u ∈ chosenTier D.normalisedCardTitles (normalise input),
        lev (normalise input) t ≤ lev (normalise input) u) ∧
      (∀ u ∈ pre, lev (normalise input) t < lev (normalise input) u) ∧
      getClosestCard D input = jget D.cards (readId t) := by
  obtain ⟨t, pre, post, hbm, hsplit, hmin, hstrict⟩ :=
    bestMatch_spec (normalise input) (chosenTier D.normalisedCardTitles (normalise input))
      (chosenTier_ne_nil _ _ hne)
  refine ⟨t, pre, post, hsplit, hmin, hstrict, ?_⟩
  simp only [getClosestCard]
  rw [if_neg (by simp [hshort]), hbm]

/-- C1 witness: the amended theorem applied to the `aa`/`bb` index and the query `aa`. -/
theorem c1_witness :
    ∃ t pre post,
      chosenTier idxAB.normalisedCardTitles (normalise "aa".data) = pre ++ t :: post ∧
      (∀ u ∈ chosenTier idxAB.normalisedCardTitles (normalise "aa".data),
        lev (normalise "aa".data) t ≤ lev (normalise "aa".data) u) ∧
      (∀ u ∈ pre, lev (normalise "aa".data) t < lev (normalise "aa".data) u) ∧
      getClosestCard idxAB "aa".data = jget idxAB.cards (readId t) :=
  c1_tiered_resolution idxAB "aa".data (by decide) (by decide)

/-- C2 counterexample: the raw query `A.` is unchanged by upper-casing and has length
2, and its normalised form `a` is a key of the acronym index of the
`Aardvark`/`Ae` catalog — the claim's conditions all hold — yet `getClosestCard`
does not return the acronym entry (`Aardvark`): the guard tests the length of the
normalised query (1), so the tiers run and return the `Ae` card. -/
theorem c2_counterexample :
    jsToUpper "A.".data = "A.".data ∧
    1 < ("A.".data : Str).length ∧
    jget idxA.acronymsToCardIds (normalise "A.".data) = some cAard.id ∧
    jget idxA.cards cAard.id = some cAard ∧
    getClosestCard idxA "A.".data = some cAe ∧
    cAe ≠ cAard := by decide

/-- C2 (amended): when the raw query is unchanged by upper-casing, its normalised
form has length greater than 1, and the acronym index maps that normalised form to a
non-empty identifier, `getClosestCard` returns the card-cache entry for that
identifier immediately, bypassing all tiers. -/
theorem c2_acronym_shortcut (D : WrIndex) (input : Str) (cid : Str)
    (hup : jsToUpper input = input)
    (hlen : 1 < (normalise input).length)
    (hget : jget D.acronymsToCardIds (normalise input) = some cid)
    (hne : cid ≠ []) :
    getClosestCard D input = jget D.cards cid := by
  have hfal : jsFalsyOpt (some cid) = false := by
    cases hcid : cid with
    | nil => exact absurd hcid hne
    | cons y ys => rfl
  have hhit : acronymHit D input = true := by
    unfold acronymHit
    rw [hget, hup]
    simp [hlen, hfal]
  simp only [getClosestCard]
  rw [if_pos hhit, hget]
  rfl

/-- C2 witness: the amended theorem applied to the `Flame Ward`/`Frozen Wastes`
index and the literal query `FW`. -/
theorem c2_witness :
    getClosestCard (buildIndex [cFW1, cFZ] []) "FW".data =
      jget (buildIndex [cFW1, cFZ] []).cards "flame ward".data :=
  c2_acronym_shortcut (buildIndex [cFW1, cFZ] []) "FW".data "flame ward".data
    (by decide) (by decide) (by decide) (by decide)

/-- C3 (confirmed): the acronym index maps every acronym to the identifier of the
earliest-built card deriving it (later collisions are dropped), and an all-uppercase
acronym query resolves to that earliest-built card.  Hypotheses: identifiers are
non-empty (the truthiness guard of api.js line 76 would otherwise allow an
overwrite), distinct, and derived from the title by `readId` (api.js line 60 keys the
card cache that way). -/
theorem c3_acronym_first_writer (cs : List Card) (es : List Expansion) (input : Str)
    (c0 : Card)
    (hid : ∀ c ∈ cs, c.id ≠ [])
    (hrid : ∀ c ∈ cs, readId c.fullNames.frontFace = c.id)
    (hinj : ∀ a ∈ cs, ∀ b ∈ cs, a.id = b.id → a = b)
    (hup : jsToUpper input = input)
    (hlen : 1 < (normalise input).length)
    (hfind : cs.find? (fun c => acronymOf (normalise c.fullNames.frontFace) == normalise input)
      = some c0) :
    (∀ a, jget (buildIndex cs es).acronymsToCardIds a =
      (cs.find? (fun c => acronymOf (normalise c.fullNames.frontFace) == a)).map
        (fun c => c.id)) ∧
    getClosestCard (buildIndex cs es) input = some c0 := by
  have hchar : ∀ a, jget (buildIndex cs es).acronymsToCardIds a =
      (cs.find? (fun c => acronymOf (normalise c.fullNames.frontFace) == a)).map
        (fun c => c.id) := by
    intro a
    show jget (buildAcronymsToCardIds cs) a = _
    unfold buildAcronymsToCardIds
    rw [jget_buildAcros_aux cs a [] hid, if_pos (by rfl)]
    cases hf : cs.find? (fun c => acronymOf (normalise c.fullNames.frontFace) == a) with
    | some c => rfl
    | none => rfl
  refine ⟨hchar, ?_⟩
  have hc0mem : c0 ∈ cs := List.mem_of_find?_eq_some hfind
  have hc0id : c0.id ≠ [] := hid c0 hc0mem
  have hacr : jget (buildIndex cs es).acronymsToCardIds (normalise input) = some c0.id := by
    rw [hchar, hfind]; rfl
  have hfal : jsFalsyOpt (some c0.id) = false := by
    cases hcid : c0.id with
    | nil => exact absurd hcid hc0id
    | cons y ys => rfl
  have hhit : acronymHit (buildIndex cs es) input = true := by
    unfold acronymHit
    rw [hacr, hup]
    simp [hlen, hfal]
  have hcards : jget (buildIndex cs es).cards c0.id = some c0 := by
    show jget (buildCards cs) c0.id = some c0
    unfold buildCards
    rw [jget_foldl_jset (fun c => readId c.fullNames.frontFace) (fun c => c) cs [] c0.id]
    have hf : cs.reverse.find? (fun c => readId c.fullNames.frontFace == c0.id) = some c0 := by
      refine find?_unique (List.mem_reverse.mpr hc0mem) ?_ ?_
      · rw [hrid c0 hc0mem]
        simp
      · intro b hb hpb
        have hbmem := List.mem_reverse.mp hb
        rw [hrid b hbmem] at hpb
        exact hinj b hbmem c0 hc0mem (by simpa using hpb)
    rw [hf]
  simp only [getClosestCard]
  rw [if_pos hhit, hacr]
  exact hcards

/-- C3 witness: both titles of the `Flame Ward`/`Frozen Wastes` catalog derive the
acronym `fw`; resolving the literal query `FW` returns the first-built card. -/
theorem c3_witness :
    getClosestCard (buildIndex [cFW1, cFZ] []) "FW".data = some cFW1 :=
  (c3_acronym_first_writer [cFW1, cFZ] [] "FW".data cFW1 (by decide) (by decide)
    (by decide) (by decide) (by decide) (by decide)).2

/-- C4 counterexample: `Ember Call!` and `Ember Call` normalise identically; the
denormalisation map holds the original title of the later-built entry (`Ember Call`),
not the first writer's `Ember Call!`. -/
theorem c4_counterexample :
    normalise cEm1.fullNames.frontFace = normalise cEm2.fullNames.frontFace ∧
    cEm1.fullNames.frontFace ≠ cEm2.fullNames.frontFace ∧
    jget (buildIndex [cEm1, cEm2] []).normalisedToUnnormalisedCardTitles "ember call".data
      = some "Ember Call".data := by decide

/-- C4 (amended): the denormalisation map keeps the last writer's value — for every
normalised title it holds the original title of the latest-built entry normalising to
it (the first hit in build-reverse order). -/
theorem c4_denorm_last_writer (cs : List Card) (es : List Expansion) (n : Str) :
    jget (buildIndex cs es).normalisedToUnnormalisedCardTitles n =
      (cs.reverse.find? (fun c => normalise c.fullNames.frontFace == n)).map
        (fun c => c.fullNames.frontFace) := by
  show jget (buildNormalisedToUnnormalised cs) n = _
  unfold buildNormalisedToUnnormalised
  rw [jget_foldl_jset (fun c => normalise c.fullNames.frontFace)
    (fun c => c.fullNames.frontFace) cs [] n]
  cases hf : cs.reverse.find? (fun c => normalise c.fullNames.frontFace == n) with
  | some c => rfl
  | none => rfl

/-- C5 counterexample: the span `[[]]` is rejected, but scanning does not continue —
the valid span `[[aa]]` after it yields nothing, although the same span alone
resolves fine.  The claim's "scanning continues with the remaining spans" is false. -/
theorem c5_counterexample :
    jsTrim (innerOf "[[]]".data) = [] ∧
    parseInlineCommands idxAB [] "[[]] [[aa]]".data 5 = [] ∧
    parseInlineCommands idxAB [] "[[aa]]".data 5 = [(cAA, ViewTag.full)] := by decide

/-- C5 (amended): a span whose trimmed inner text is empty or longer than 255
characters consumes no output slot, but it aborts the whole scan: the command loop
returns at that span, so no further span of the same text is processed. -/
theorem c5_abort (D : WrIndex) (am : JsMap Str) (m : Str)
    (hbad : jsTrim (innerOf m) = [] ∨ 255 < (jsTrim (innerOf m)).length) :
    (∀ rest countdown prevCards, processMatches D am (m :: rest) countdown prevCards = []) ∧
    (∀ ms rest rest' countdown prevCards,
      processMatches D am (ms ++ m :: rest) countdown prevCards =
        processMatches D am (ms ++ m :: rest') countdown prevCards) := by
  have h1 : ∀ rest countdown prevCards,
      processMatches D am (m :: rest) countdown prevCards = [] := by
    intro rest countdown prevCards
    simp only [processMatches]
    by_cases hc : countdown < 1
    · rw [if_pos hc]
    · rw [if_neg hc, if_pos hbad]
  refine ⟨h1, ?_⟩
  intro ms
  induction ms with
  | nil =>
    intro rest rest' countdown prevCards
    rw [List.nil_append, List.nil_append, h1, h1]
  | cons x ms ih =>
    intro rest rest' countdown prevCards
    simp only [List.cons_append, processMatches]
    by_cases hc : countdown < 1
    · rw [if_pos hc, if_pos hc]
    · rw [if_neg hc, if_neg hc]
      by_cases hb : jsTrim (innerOf x) = [] ∨ 255 < (jsTrim (innerOf x)).length
      · rw [if_pos hb, if_pos hb]
      · rw [if_neg hb, if_neg hb]
        cases hcc : getClosestCard D (applyAlias am (jsTrim (innerOf x))) with
        | none => exact ih rest rest' _ _
        | some card =>
          by_cases hdup : card.id ∈ prevCards
          · simp only [if_pos hdup]
            exact ih rest rest' _ _
          · simp only [if_neg hdup]
            exact congrArg (List.cons (card, tagOf x)) (ih rest rest' _ _)

/-- C5 witness: the amended theorem applied to the match list of `[[]] [[aa]]`. -/
theorem c5_witness :
    processMatches idxAB [] ["[[]]".data, "[[aa]]".data] 5 [] = [] :=
  (c5_abort idxAB [] "[[]]".data (Or.inl (by decide))).1 ["[[aa]]".data] 5 []

/-- C6: evaluation at the failing input — text `[[aa]] [[aa]] [[bb]]` with a result
limit of 2 against the `aa`/`bb` catalog emits only the `aa` reference.  The claim
requires min(2, 2) = 2 references (`aa` then `bb`); the duplicate span consumed a cap
slot because the un-awaited `async parseCard`'s Promise is always truthy. -/
theorem c6_cap_bug_eval :
    parseInlineCommands idxAB [] "[[aa]] [[aa]] [[bb]]".data 2 = [(cAA, ViewTag.full)] := by
  decide

/-- C7: evaluation — deduplication itself holds (`[[aa]] <<aa>>` emits one
reference), but the duplicate span still consumes a cap slot: with a limit of 2 the
text `[[aa]] <<aa>> [[bb]]` loses the `bb` reference, contradicting the claim's
"does not count a second time against the output cap". -/
theorem c7_dup_cap_eval :
    parseInlineCommands idxAB [] "[[aa]] <<aa>>".data 5 = [(cAA, ViewTag.full)] ∧
    parseInlineCommands idxAB [] "[[aa]] <<aa>> [[bb]]".data 2 = [(cAA, ViewTag.full)] := by
  decide

/-- C8 counterexample: in `t8` the outer triple-backtick markers are both unescaped
and the span `[[aa]]` lies between them, yet a reference is produced: the strip
regex's lazy close accepts the escaped middle marker, so only the first part of the
region is deleted. -/
theorem c8_counterexample :
    t8 = fenceM ++ "x".data ++ [bslash] ++ fenceM ++ " [[aa]] ".data ++ fenceM ∧
    stripCodeBlocks t8 = " [[aa]] ".data ++ fenceM ∧
    parseInlineCommands idxAB [] t8 5 = [(cAA, ViewTag.full)] := by decide

/-- C8 (amended): a stripped fence is a region opening at an unescaped triple
backtick and closing at the earliest following triple backtick (whose own escaping is
not checked).  Such a block is deleted before scanning — its spans produce no
references — and the surrounding text is scanned as if the block were absent. -/
theorem c8_fence_strip (pre inner post : Str)
    (h1 : btick ∉ pre) (h2 : bslash ∉ pre) (h3 : btick ∉ inner) :
    stripCodeBlocks
        (pre ++ btick :: btick :: btick :: (inner ++ btick :: btick :: btick :: post)) =
      pre ++ stripAux (some btick) false 0 post ∧
    ∀ (D : WrIndex) (am : JsMap Str) (lim : Nat),
      parseInlineCommands D am
          (pre ++ btick :: btick :: btick :: (inner ++ btick :: btick :: btick :: post)) lim =
        processMatches D am (findCommands (pre ++ stripAux (some btick) false 0 post)) lim [] := by
  have hs : stripCodeBlocks
      (pre ++ btick :: btick :: btick :: (inner ++ btick :: btick :: btick :: post)) =
      pre ++ stripAux (some btick) false 0 post := by
    show stripAux none false 0 _ = _
    exact stripAux_fence pre inner post none h1 h2 h3 (by simp)
  refine ⟨hs, ?_⟩
  intro D am lim
  show processMatches D am (findCommands (stripCodeBlocks _)) lim [] = _
  rw [hs]

/-- C8 witness: the amended theorem applied to a concrete fenced text. -/
theorem c8_witness :
    stripCodeBlocks
        ("x ".data ++ btick :: btick :: btick ::
          ("[[aa]]".data ++ btick :: btick :: btick :: " [[bb]]".data)) =
      "x ".data ++ stripAux (some btick) false 0 " [[bb]]".data :=
  (c8_fence_strip "x ".data "[[aa]]".data " [[bb]]".data (by decide) (by decide)
    (by decide)).1

/-- C9 counterexample: a snapshot that parsed but lacks the `expansions` array leaves
`DATA` changed — the card-derived structures are replaced and the expansions map is
cleared — although the build failed.  The claim's "every part of the previously
active index is left unchanged" is false for malformed bodies. -/
theorem c9_counterexample :
    (loadApiData oldData (Except.ok snapNoExp)).2 = some LoadError.missingExpansions ∧
    (loadApiData oldData (Except.ok snapNoExp)).1 ≠ oldData ∧
    (loadApiData oldData (Except.ok snapNoExp)).1.expansions = some [] := by decide

/-- C9 (amended): a fetch-level failure (non-success response or unparsable body)
raises before any mutation and leaves every part of the previous index unchanged;
but a parsed body missing the `cards` array clears the card cache and keeps the other
(now stale) parts, and one missing the `expansions` array installs the new
card-derived structures with an emptied expansions map — a partially overwritten
index remains installed in both malformed-body cases. -/
theorem c9_reload_behaviour :
    (∀ (old : WrData) (e : Str),
      loadApiData old (Except.error e) = (old, some (LoadError.fetch e))) ∧
    (∀ (old : WrData) (es : Option (List Expansion)),
      loadApiData old (Except.ok ⟨none, es⟩) =
        (⟨none, old.normalisedCardTitles, old.normalisedToUnnormalisedCardTitles,
          old.acronymsToCardIds, old.mappedCardTitles, old.expansions⟩,
         some LoadError.missingCards)) ∧
    (∀ (old : WrData) (cs : List Card),
      loadApiData old (Except.ok ⟨some cs, none⟩) =
        (⟨some (buildCards cs), some (buildNormalisedCardTitles cs),
          some (buildNormalisedToUnnormalised cs), some (buildAcronymsToCardIds cs),
          some (buildMappedCardTitles (buildNormalisedCardTitles cs)), some []⟩,
         some LoadError.missingExpansions)) :=
  ⟨fun _ _ => rfl, fun _ _ => rfl, fun _ _ => rfl⟩

/-- C10 counterexample: with distinct info/no-domain colours, a stitch-less card
whose type line is `A Witch.` gets the info colour from the discord.js helper but the
no-domain colour from the duplicate module — the two definitions disagree. -/
theorem c10_counterexample :
    jsTruthyOpt cardWitch.frontFace.stitchIcon = false ∧
    cardToColor envTest cardWitch = envTest.colorInfo ∧
    cardToColorDup envTest cardWitch = envTest.colorNoDomain ∧
    cardToColor envTest cardWitch ≠ cardToColorDup envTest cardWitch := by decide

/-- C10 (amended): the two `cardToColor` definitions agree on every card with a
truthy stitch icon; on a stitch-less card the discord.js version always returns the
info colour while the duplicate returns the info colour only for resource/marker type
lines and the no-domain colour otherwise. -/
theorem c10_color_split (env : ColorEnv) (card : Card) :
    (jsTruthyOpt card.frontFace.stitchIcon = true →
      cardToColor env card = cardToColorDup env card) ∧
    (jsTruthyOpt card.frontFace.stitchIcon = false →
      cardToColor env card = env.colorInfo ∧
      cardToColorDup env card =
        (if card.frontFace.typeLine = "A Resource.".data ∨
            card.frontFace.typeLine = "A Marker.".data
         then env.colorInfo else env.colorNoDomain)) := by
  constructor
  · intro h
    simp [cardToColor, cardToColorDup, h]
  · intro h
    simp [cardToColor, cardToColorDup, h]

/-- C10 witness: the amended theorem applied to a card with a truthy stitch icon. -/
theorem c10_witness :
    cardToColor envTest cardFlame = cardToColorDup envTest cardFlame :=
  (c10_color_split envTest cardFlame).1 (by decide)

end Spellcracker
